import Mathlib

/-!
Verification of the AgentBridge agent-execution and streaming-orchestration
core against its design document.

Each section shallowly embeds one source module:
  * `MessageQueue` — src/messaging/messageQueue.ts (`createMessageQueueProcessor`,
    both the plain and the verbose-logging variant).
  * `LiveMsg` — src/messaging/liveMessageProcessor.ts
    (`processSingleTelegramMessage` and its inner helpers).
  * `TempAcp` — the temporary ACP process-session runner
    (`runPromptWithTempAcp`: the chunk collector, the settle/cleanup discipline).
  * `Sched` — src/scheduler/scheduledJobHandler.ts (`handleScheduledJob`).

JavaScript is single-threaded and all the awaited collaborators are injected,
so the asynchronous handlers are embedded as pure state-transition functions;
each suspension-free handler runs atomically, and the environment (chunk
arrivals, debounce-timer firings, prompt completion) is an explicit event list.
Emitted side effects (platform calls, logs, promise settlements) are recorded
in an output trace.
-/

namespace MessageQueue

/-- One entry of `messageQueue`: `{ requestId, messageContext, resolve, reject }`.
The opaque message context is modelled as a `Nat` payload; the completion
handle is represented by `settle` events in the trace. -/
structure QItem where
  requestId : Nat
  payload : Nat
deriving Repr, DecidableEq

/-- The closure state of `createMessageQueueProcessor`:
`messageQueue`, `isQueueProcessing`, `messageSequence`. -/
structure QState where
  messageQueue : List QItem
  isQueueProcessing : Bool
  messageSequence : Nat
deriving Repr, DecidableEq

/-- Observable events of a queue run.  `start r p` is the invocation of
`processSingleMessage(messageContext, requestId)`; `settle r none` is
`item.resolve()`; `settle r (some e)` is `item.reject(error)`. -/
inductive QEvent where
  | log (message : String)
  | start (requestId : Nat) (payload : Nat)
  | settle (requestId : Nat) (outcome : Option String)
deriving Repr, DecidableEq

def initialQState : QState := ⟨[], false, 0⟩

/-- Body of `enqueueMessage` (plain variant) up to the `processQueue()` call:
assign `requestId := ++messageSequence`, push the item, and log the backlog
only when the queue holds more than one entry. -/
def enqueueItem (p : Nat) (st : QState) : QState × List QEvent :=
  let requestId := st.messageSequence + 1
  let st1 : QState := ⟨st.messageQueue ++ [⟨requestId, p⟩], st.isQueueProcessing, requestId⟩
  (st1, if st1.messageQueue.length > 1 then [QEvent.log "Message enqueued"] else [])

/-- A burst of `enqueueMessage` calls landing while the drain loop is awaiting
an executor.  Each call also invokes `processQueue`, which returns at once
because `isQueueProcessing` is set, so only the enqueue itself is visible. -/
def enqueueBatch (ps : List Nat) (st : QState) : QState × List QEvent :=
  match ps with
  | [] => (st, [])
  | p :: rest =>
    let r1 := enqueueItem p st
    let r2 := enqueueBatch rest r1.1
    (r2.1, r1.2 ++ r2.2)

/-- The `while (messageQueue.length > 0)` drain loop of `processQueue` (plain
variant).  `exec payload requestId` is the outcome of the awaited
`processSingleMessage` call (`none` = fulfilled, `some e` = threw `e`);
`during.getD k []` are the payloads enqueued while the `k`-th processed item
is being awaited.  `fuel` bounds the number of iterations so the function is
total; the drain itself terminates exactly when the queue empties, which the
completeness theorems below recover for sufficiently large fuel. -/
def drainQueue (exec : Nat → Nat → Option String) (during : List (List Nat)) :
    Nat → QState → Nat → QState × List QEvent
  | _, st, 0 => (st, [])
  | k, st, fuel + 1 =>
    match st.messageQueue with
    | [] => ({ st with isQueueProcessing := false }, [])
    | item :: rest =>
      let st1 : QState := { st with messageQueue := rest }
      let arr := enqueueBatch (during.getD k []) st1
      let settleEvs : List QEvent :=
        match exec item.payload item.requestId with
        | none => [QEvent.settle item.requestId none]
        | some e => [QEvent.log "Message processing failed", QEvent.settle item.requestId (some e)]
      let rec1 := drainQueue exec during (k + 1) arr.1 fuel
      (rec1.1, QEvent.start item.requestId item.payload :: (arr.2 ++ settleEvs ++ rec1.2))

/-- `processQueue` (plain variant): bail out when a drain is already running,
otherwise set `isQueueProcessing` and drain.  The post-loop
`if (messageQueue.length > 0) processQueue()` re-check is unreachable here:
nothing can be enqueued between clearing the flag and the check, because no
suspension point separates them. -/
def processQueue (exec : Nat → Nat → Option String) (during : List (List Nat))
    (k : Nat) (st : QState) (fuel : Nat) : QState × List QEvent :=
  if st.isQueueProcessing then (st, [])
  else drainQueue exec during k { st with isQueueProcessing := true } fuel

/-- One busy period of the plain-variant processor: the first `enqueueMessage`
call from an idle queue synchronously triggers the drain, and every later
enqueue lands during some executor await (captured by `during`), because the
drain only yields control at those awaits. -/
def runQueue1 (exec : Nat → Nat → Option String) (p0 : Nat) (during : List (List Nat))
    (fuel : Nat) : QState × List QEvent :=
  let e := enqueueItem p0 initialQState
  let r := processQueue exec during 0 e.1 fuel
  (r.1, e.2 ++ r.2)

/-- Serial-FIFO trace checker: ignoring logs, the trace must consist of
`start r` / `settle r` pairs with strictly increasing request ids and no
second `start` opening before the previous execution settled.  `cur` is the
request id currently executing, `prev` the last id started. -/
def serialFifoAux (prev : Nat) (cur : Option Nat) : List QEvent → Bool
  | [] => cur.isNone
  | QEvent.log _ :: rest => serialFifoAux prev cur rest
  | QEvent.start r _ :: rest =>
    match cur with
    | none => decide (prev < r) && serialFifoAux prev (some r) rest
    | some _ => false
  | QEvent.settle r _ :: rest =>
    match cur with
    | none => false
    | some r1 => decide (r1 = r) && serialFifoAux r none rest

def startsOf (tr : List QEvent) : List (Nat × Nat) :=
  tr.filterMap fun e =>
    match e with
    | QEvent.start r p => some (r, p)
    | _ => none

def settlesOf (tr : List QEvent) : List (Nat × Option String) :=
  tr.filterMap fun e =>
    match e with
    | QEvent.settle r o => some (r, o)
    | _ => none

/-- `consecFrom a n = [a, a+1, ..., a+n-1]`. -/
def consecFrom : Nat → Nat → List Nat
  | _, 0 => []
  | a, n + 1 => a :: consecFrom (a + 1) n

/-- The queue contents with consecutive request ids starting at `a`, one per
pending payload. -/
def mkItems : Nat → List Nat → List QItem
  | _, [] => []
  | a, p :: ps => ⟨a, p⟩ :: mkItems (a + 1) ps

/-- Total length of the arrival batches from index `k` on. -/
def sumLenFrom : Nat → List (List Nat) → Nat
  | _, [] => 0
  | 0, l :: ls => l.length + sumLenFrom 0 ls
  | k + 1, _ :: ls => sumLenFrom k ls

def isLogEvent : QEvent → Bool
  | QEvent.log _ => true
  | _ => false

theorem mkItems_length (ps : List Nat) : ∀ a, (mkItems a ps).length = ps.length := by
  induction ps with
  | nil => intro a; rfl
  | cons p ps ih => intro a; simp [mkItems, ih]

theorem mkItems_append (ps : List Nat) :
    ∀ a p, mkItems a (ps ++ [p]) = mkItems a ps ++ [⟨a + ps.length, p⟩] := by
  induction ps with
  | nil => intro a p; simp [mkItems]
  | cons q ps ih =>
    intro a p
    rw [List.cons_append, mkItems, ih, mkItems]
    rw [show a + 1 + ps.length = a + (q :: ps).length from by
      simp only [List.length_cons]; omega]
    simp [List.cons_append]

theorem enqueueItem_inv (p : Nat) (pend : List Nat) (s : Nat) (b : Bool) :
    (enqueueItem p ⟨mkItems (s + 1) pend, b, s + pend.length⟩).1
      = ⟨mkItems (s + 1) (pend ++ [p]), b, s + (pend ++ [p]).length⟩ := by
  simp only [enqueueItem, mkItems_append, List.length_append, List.length_cons,
    List.length_nil]
  rw [show s + 1 + pend.length = s + pend.length + 1 from by omega,
      show s + (pend.length + (0 + 1)) = s + pend.length + 1 from by omega]

theorem enqueueBatch_inv (ps : List Nat) :
    ∀ pend s b, (enqueueBatch ps ⟨mkItems (s + 1) pend, b, s + pend.length⟩).1
      = ⟨mkItems (s + 1) (pend ++ ps), b, s + (pend ++ ps).length⟩ := by
  induction ps with
  | nil => intro pend s b; simp [enqueueBatch]
  | cons p ps ih =>
    intro pend s b
    simp only [enqueueBatch, enqueueItem_inv]
    rw [ih (pend ++ [p]) s b]
    simp

theorem enqueueItem_all_log (p : Nat) (st : QState) :
    (enqueueItem p st).2.all isLogEvent = true := by
  simp only [enqueueItem]
  split <;> simp [isLogEvent]

theorem enqueueBatch_all_log (ps : List Nat) :
    ∀ st, (enqueueBatch ps st).2.all isLogEvent = true := by
  induction ps with
  | nil => intro st; rfl
  | cons p ps ih =>
    intro st
    simp only [enqueueBatch, List.all_append, Bool.and_eq_true]
    exact And.intro (enqueueItem_all_log p st) (ih _)

theorem serialFifoAux_skip_logs (evs : List QEvent) :
    ∀ prev cur rest, evs.all isLogEvent = true →
      serialFifoAux prev cur (evs ++ rest) = serialFifoAux prev cur rest := by
  induction evs with
  | nil => intro prev cur rest _; rfl
  | cons e evs ih =>
    intro prev cur rest h
    simp only [List.all_cons, Bool.and_eq_true] at h
    cases e with
    | log m => simpa [serialFifoAux] using ih prev cur rest h.2
    | start r p => simp [isLogEvent] at h
    | settle r o => simp [isLogEvent] at h

theorem startsOf_logs (evs : List QEvent) (h : evs.all isLogEvent = true) :
    startsOf evs = [] := by
  induction evs with
  | nil => rfl
  | cons e evs ih =>
    simp only [List.all_cons, Bool.and_eq_true] at h
    cases e with
    | log m => simpa [startsOf, List.filterMap] using ih h.2
    | start r p => simp [isLogEvent] at h
    | settle r o => simp [isLogEvent] at h

theorem settlesOf_logs (evs : List QEvent) (h : evs.all isLogEvent = true) :
    settlesOf evs = [] := by
  induction evs with
  | nil => rfl
  | cons e evs ih =>
    simp only [List.all_cons, Bool.and_eq_true] at h
    cases e with
    | log m => simpa [settlesOf, List.filterMap] using ih h.2
    | start r p => simp [isLogEvent] at h
    | settle r o => simp [isLogEvent] at h

theorem startsOf_append (a b : List QEvent) : startsOf (a ++ b) = startsOf a ++ startsOf b := by
  simp [startsOf, List.filterMap_append]

theorem settlesOf_append (a b : List QEvent) :
    settlesOf (a ++ b) = settlesOf a ++ settlesOf b := by
  simp [settlesOf, List.filterMap_append]

theorem startsOf_nil : startsOf [] = [] := rfl

theorem settlesOf_nil : settlesOf [] = [] := rfl

theorem startsOf_cons_start (r p : Nat) (tr : List QEvent) :
    startsOf (QEvent.start r p :: tr) = (r, p) :: startsOf tr := rfl

theorem startsOf_cons_settle (r : Nat) (o : Option String) (tr : List QEvent) :
    startsOf (QEvent.settle r o :: tr) = startsOf tr := rfl

theorem startsOf_cons_log (m : String) (tr : List QEvent) :
    startsOf (QEvent.log m :: tr) = startsOf tr := rfl

theorem settlesOf_cons_start (r p : Nat) (tr : List QEvent) :
    settlesOf (QEvent.start r p :: tr) = settlesOf tr := rfl

theorem settlesOf_cons_settle (r : Nat) (o : Option String) (tr : List QEvent) :
    settlesOf (QEvent.settle r o :: tr) = (r, o) :: settlesOf tr := rfl

theorem settlesOf_cons_log (m : String) (tr : List QEvent) :
    settlesOf (QEvent.log m :: tr) = settlesOf tr := rfl

theorem sumLenFrom_getD (during : List (List Nat)) :
    ∀ k, (during.getD k []).length + sumLenFrom (k + 1) during ≤ sumLenFrom k during := by
  induction during with
  | nil => intro k; simp [sumLenFrom, List.getD]
  | cons l ls ih =>
    intro k
    cases k with
    | zero => simp [sumLenFrom, List.getD]
    | succ k =>
      have h := ih k
      simpa [sumLenFrom, List.getD_cons_succ] using h

/-- The drain loop started on a queue of `pend` payloads whose request ids are
the consecutive block `s+1, ..., s+pend.length`. -/
def drainRun (exec : Nat → Nat → Option String) (during : List (List Nat))
    (k s : Nat) (pend : List Nat) (fuel : Nat) : QState × List QEvent :=
  drainQueue exec during k ⟨mkItems (s + 1) pend, true, s + pend.length⟩ fuel

theorem drain_spec (exec : Nat → Nat → Option String) (during : List (List Nat)) :
    ∀ fuel k s pend,
      serialFifoAux s none (drainRun exec during k s pend fuel).2 = true
      ∧ settlesOf (drainRun exec during k s pend fuel).2
          = (startsOf (drainRun exec during k s pend fuel).2).map
              (fun rp => (rp.1, exec rp.2 rp.1))
      ∧ (startsOf (drainRun exec during k s pend fuel).2).map Prod.fst
          = consecFrom (s + 1) (startsOf (drainRun exec during k s pend fuel).2).length
      ∧ (drainRun exec during k s pend fuel).1.messageSequence
          = s + (startsOf (drainRun exec during k s pend fuel).2).length
              + (drainRun exec during k s pend fuel).1.messageQueue.length
      ∧ (pend.length + sumLenFrom k during + 1 ≤ fuel →
          (drainRun exec during k s pend fuel).1.messageQueue = []
          ∧ (drainRun exec during k s pend fuel).1.isQueueProcessing = false) := by
  intro fuel
  induction fuel with
  | zero =>
    intro k s pend
    refine ⟨rfl, rfl, rfl, ?_, ?_⟩
    · simp [drainRun, drainQueue, startsOf, mkItems_length]
    · intro h; omega
  | succ fuel ih =>
    intro k s pend
    cases pend with
    | nil =>
      refine ⟨rfl, rfl, rfl, ?_, ?_⟩
      · simp [drainRun, drainQueue, mkItems, startsOf]
      · intro _
        simp [drainRun, drainQueue, mkItems]
    | cons p pr =>
      have harr := enqueueBatch_inv (during.getD k []) pr (s + 1) true
      have hlog := enqueueBatch_all_log (during.getD k [])
        (⟨mkItems (s + 1 + 1) pr, true, s + 1 + pr.length⟩ : QState)
      obtain ⟨ih1, ih2, ih3, ih4, ih5⟩ := ih (k + 1) (s + 1) (pr ++ during.getD k [])
      have hstep : drainRun exec during k s (p :: pr) (fuel + 1)
          = ((drainRun exec during (k + 1) (s + 1) (pr ++ during.getD k []) fuel).1,
             QEvent.start (s + 1) p ::
               ((enqueueBatch (during.getD k [])
                   (⟨mkItems (s + 1 + 1) pr, true, s + 1 + pr.length⟩ : QState)).2
                 ++ (match exec p (s + 1) with
                     | none => [QEvent.settle (s + 1) none]
                     | some e => [QEvent.log "Message processing failed",
                                  QEvent.settle (s + 1) (some e)])
                 ++ (drainRun exec during (k + 1) (s + 1) (pr ++ during.getD k []) fuel).2)) := by
        show drainQueue exec during k
            ⟨mkItems (s + 1) (p :: pr), true, s + (p :: pr).length⟩ (fuel + 1) = _
        simp only [mkItems, List.length_cons]
        rw [show s + (pr.length + 1) = s + 1 + pr.length from by omega]
        simp only [drainQueue, harr, drainRun]
      refine ⟨?_, ?_, ?_, ?_, ?_⟩
      · rw [hstep]
        simp only [serialFifoAux, List.append_assoc]
        rw [serialFifoAux_skip_logs _ _ _ _ hlog]
        cases hx : exec p (s + 1) with
        | none =>
          simp only [List.singleton_append, List.cons_append, serialFifoAux,
            Bool.and_eq_true, decide_eq_true_eq]
          exact ⟨Nat.lt_succ_self s, trivial, ih1⟩
        | some e =>
          simp only [List.singleton_append, List.cons_append, serialFifoAux,
            Bool.and_eq_true, decide_eq_true_eq]
          exact ⟨Nat.lt_succ_self s, trivial, ih1⟩
      · rw [hstep]
        cases hx : exec p (s + 1) with
        | none =>
          simp only [startsOf_cons_start, settlesOf_cons_start, startsOf_append,
            settlesOf_append, startsOf_logs _ hlog, settlesOf_logs _ hlog,
            startsOf_cons_settle, settlesOf_cons_settle, startsOf_cons_log,
            settlesOf_cons_log, startsOf_nil, settlesOf_nil, List.nil_append,
            List.singleton_append, List.map_cons, hx]
          rw [ih2]
        | some e =>
          simp only [startsOf_cons_start, settlesOf_cons_start, startsOf_append,
            settlesOf_append, startsOf_logs _ hlog, settlesOf_logs _ hlog,
            startsOf_cons_settle, settlesOf_cons_settle, startsOf_cons_log,
            settlesOf_cons_log, startsOf_nil, settlesOf_nil, List.nil_append,
            List.singleton_append, List.map_cons, hx]
          rw [ih2]
      · rw [hstep]
        cases hx : exec p (s + 1) with
        | none =>
          simp only [startsOf_cons_start, startsOf_append, startsOf_logs _ hlog,
            startsOf_cons_settle, startsOf_cons_log, startsOf_nil, List.nil_append,
            List.map_cons, List.length_cons]
          rw [ih3, consecFrom]
        | some e =>
          simp only [startsOf_cons_start, startsOf_append, startsOf_logs _ hlog,
            startsOf_cons_settle, startsOf_cons_log, startsOf_nil, List.nil_append,
            List.map_cons, List.length_cons]
          rw [ih3, consecFrom]
      · rw [hstep]
        cases hx : exec p (s + 1) with
        | none =>
          simp only [startsOf_cons_start, startsOf_append, startsOf_logs _ hlog,
            startsOf_cons_settle, startsOf_cons_log, startsOf_nil, List.nil_append,
            List.length_cons]
          omega
        | some e =>
          simp only [startsOf_cons_start, startsOf_append, startsOf_logs _ hlog,
            startsOf_cons_settle, startsOf_cons_log, startsOf_nil, List.nil_append,
            List.length_cons]
          omega
      · intro hfuel
        rw [hstep]
        refine ih5 ?_
        have hgd := sumLenFrom_getD during k
        simp only [List.length_cons] at hfuel
        simp only [List.length_append]
        omega

theorem runQueue1_eq_drainRun (exec : Nat → Nat → Option String) (p0 : Nat)
    (during : List (List Nat)) (fuel : Nat) :
    runQueue1 exec p0 during fuel = drainRun exec during 0 0 [p0] fuel := by
  show _ = drainQueue exec during 0 ⟨mkItems (0 + 1) [p0], true, 0 + [p0].length⟩ fuel
  simp [runQueue1, enqueueItem, processQueue, initialQState, mkItems, drainRun]

/-- C1: every item enqueued in one busy period of the serializer is started in
strict arrival order (the started request ids are exactly the consecutive
block `1..N` of assigned sequence numbers), and the trace is serial — each
`processSingleMessage` invocation settles before the next one starts, so no
two executor runs overlap; with enough fuel the drain empties the queue and
every enqueued item is executed. -/
theorem requestSerializer_fifo_serial (exec : Nat → Nat → Option String) (p0 : Nat)
    (during : List (List Nat)) (fuel : Nat) :
    serialFifoAux 0 none (runQueue1 exec p0 during fuel).2 = true
    ∧ (startsOf (runQueue1 exec p0 during fuel).2).map Prod.fst
        = consecFrom 1 (startsOf (runQueue1 exec p0 during fuel).2).length
    ∧ (2 + sumLenFrom 0 during ≤ fuel →
        (runQueue1 exec p0 during fuel).1.messageQueue = []
        ∧ (startsOf (runQueue1 exec p0 during fuel).2).length
            = (runQueue1 exec p0 during fuel).1.messageSequence) := by
  obtain ⟨h1, h2, h3, h4, h5⟩ := drain_spec exec during fuel 0 0 [p0]
  rw [runQueue1_eq_drainRun]
  refine ⟨h1, ?_, ?_⟩
  · simpa using h3
  · intro hf
    obtain ⟨hq, _⟩ := h5 (by simp only [List.length_cons, List.length_nil]; omega)
    refine ⟨hq, ?_⟩
    rw [hq] at h4
    simp only [List.length_nil] at h4
    omega

theorem requestSerializer_fifo_serial_witness :
    (runQueue1 (fun _ r => if r = 2 then some "boom" else none) 7 [[8, 9]] 5).1.messageQueue = []
    ∧ (startsOf (runQueue1 (fun _ r => if r = 2 then some "boom" else none) 7 [[8, 9]] 5).2).length
        = (runQueue1 (fun _ r => if r = 2 then some "boom" else none) 7 [[8, 9]] 5).1.messageSequence :=
  (requestSerializer_fifo_serial (fun _ r => if r = 2 then some "boom" else none)
    7 [[8, 9]] 5).2.2 (by decide)

/-- C8: in any busy period, each item settles with exactly its own executor
outcome (a throwing executor rejects that item alone, with that error), and
the drain continues regardless: with enough fuel every enqueued item is
settled no matter which executors fail. -/
theorem queue_failure_isolation (exec : Nat → Nat → Option String) (p0 : Nat)
    (during : List (List Nat)) (fuel : Nat) :
    settlesOf (runQueue1 exec p0 during fuel).2
      = (startsOf (runQueue1 exec p0 during fuel).2).map (fun rp => (rp.1, exec rp.2 rp.1))
    ∧ (2 + sumLenFrom 0 during ≤ fuel →
        (settlesOf (runQueue1 exec p0 during fuel).2).length
          = (runQueue1 exec p0 during fuel).1.messageSequence) := by
  obtain ⟨h1, h2, h3, h4, h5⟩ := drain_spec exec during fuel 0 0 [p0]
  rw [runQueue1_eq_drainRun]
  refine ⟨h2, ?_⟩
  · intro hf
    obtain ⟨hq, _⟩ := h5 (by simp only [List.length_cons, List.length_nil]; omega)
    rw [hq] at h4
    simp only [List.length_nil] at h4
    rw [h2, List.length_map]
    omega

theorem queue_failure_isolation_witness :
    settlesOf (runQueue1 (fun _ r => if r = 2 then some "boom" else none) 7 [[8, 9]] 5).2
      = (startsOf (runQueue1 (fun _ r => if r = 2 then some "boom" else none) 7 [[8, 9]] 5).2).map
          (fun rp => (rp.1, (fun _ r => if r = 2 then some "boom" else none) rp.2 rp.1))
    ∧ (settlesOf (runQueue1 (fun _ r => if r = 2 then some "boom" else none) 7 [[8, 9]] 5).2).length
        = (runQueue1 (fun _ r => if r = 2 then some "boom" else none) 7 [[8, 9]] 5).1.messageSequence :=
  ⟨(queue_failure_isolation (fun _ r => if r = 2 then some "boom" else none) 7 [[8, 9]] 5).1,
   (queue_failure_isolation (fun _ r => if r = 2 then some "boom" else none) 7 [[8, 9]] 5).2
     (by decide)⟩

/-- Body of `enqueueMessage` in the verbose-logging variant of
`createMessageQueueProcessor`: identical state transition, but it logs
unconditionally (twice) before invoking `processQueue`. -/
def enqueueItem2 (p : Nat) (st : QState) : QState × List QEvent :=
  let requestId := st.messageSequence + 1
  let st1 : QState := ⟨st.messageQueue ++ [⟨requestId, p⟩], st.isQueueProcessing, requestId⟩
  (st1, [QEvent.log "Message enqueued, calling processQueue", QEvent.log "Message enqueued"])

/-- A burst of verbose-variant `enqueueMessage` calls during an executor await.
Each call also runs `processQueue`, which logs its entry and the
already-in-progress bailout, and the `.then` logging of the returned promise
fires right after. -/
def enqueueBatch2 (ps : List Nat) (st : QState) : QState × List QEvent :=
  match ps with
  | [] => (st, [])
  | p :: rest =>
    let r1 := enqueueItem2 p st
    let busyEvs : List QEvent :=
      [QEvent.log "processQueue called",
       QEvent.log "Queue processing already in progress, skipping",
       QEvent.log "Queue processing completed for enqueued message"]
    let r2 := enqueueBatch2 rest r1.1
    (r2.1, (r1.2 ++ busyEvs) ++ r2.2)

/-- The drain loop of the verbose-logging `processQueue` variant. -/
def drainQueue2 (exec : Nat → Nat → Option String) (during : List (List Nat)) :
    Nat → QState → Nat → QState × List QEvent
  | _, st, 0 => (st, [])
  | k, st, fuel + 1 =>
    match st.messageQueue with
    | [] => ({ st with isQueueProcessing := false }, [QEvent.log "Queue processing complete"])
    | item :: rest =>
      let st1 : QState := { st with messageQueue := rest }
      let arr := enqueueBatch2 (during.getD k []) st1
      let settleEvs : List QEvent :=
        match exec item.payload item.requestId with
        | none => [QEvent.log "Message processed successfully", QEvent.settle item.requestId none]
        | some e => [QEvent.log "Message processing failed", QEvent.settle item.requestId (some e)]
      let rec1 := drainQueue2 exec during (k + 1) arr.1 fuel
      (rec1.1, QEvent.log "Processing queued message" ::
        QEvent.start item.requestId item.payload :: (arr.2 ++ settleEvs ++ rec1.2))

def processQueue2 (exec : Nat → Nat → Option String) (during : List (List Nat))
    (k : Nat) (st : QState) (fuel : Nat) : QState × List QEvent :=
  if st.isQueueProcessing then
    (st, [QEvent.log "processQueue called",
          QEvent.log "Queue processing already in progress, skipping"])
  else
    let r := drainQueue2 exec during k { st with isQueueProcessing := true } fuel
    (r.1, [QEvent.log "processQueue called", QEvent.log "Starting queue processing"] ++ r.2)

/-- One busy period of the verbose-logging variant (same driver as
`runQueue1`, plus the `.then` log of the triggering enqueue). -/
def runQueue2 (exec : Nat → Nat → Option String) (p0 : Nat) (during : List (List Nat))
    (fuel : Nat) : QState × List QEvent :=
  let e := enqueueItem2 p0 initialQState
  let r := processQueue2 exec during 0 e.1 fuel
  (r.1, (e.2 ++ r.2) ++ [QEvent.log "Queue processing completed for enqueued message"])

/-- The non-logging (observable) events of a trace. -/
def execEventsOf (tr : List QEvent) : List QEvent := tr.filter fun e => !isLogEvent e

theorem execEventsOf_append (a b : List QEvent) :
    execEventsOf (a ++ b) = execEventsOf a ++ execEventsOf b := by
  simp [execEventsOf, List.filter_append]

theorem execEventsOf_nil : execEventsOf [] = [] := rfl

theorem execEventsOf_cons_log (m : String) (tr : List QEvent) :
    execEventsOf (QEvent.log m :: tr) = execEventsOf tr := rfl

theorem execEventsOf_cons_start (r p : Nat) (tr : List QEvent) :
    execEventsOf (QEvent.start r p :: tr) = QEvent.start r p :: execEventsOf tr := rfl

theorem execEventsOf_cons_settle (r : Nat) (o : Option String) (tr : List QEvent) :
    execEventsOf (QEvent.settle r o :: tr) = QEvent.settle r o :: execEventsOf tr := rfl

theorem execEventsOf_logs (evs : List QEvent) (h : evs.all isLogEvent = true) :
    execEventsOf evs = [] := by
  induction evs with
  | nil => rfl
  | cons e evs ih =>
    simp only [List.all_cons, Bool.and_eq_true] at h
    cases e with
    | log m => rw [execEventsOf_cons_log]; exact ih h.2
    | start r p => simp [isLogEvent] at h
    | settle r o => simp [isLogEvent] at h

theorem enqueueBatch2_fst (ps : List Nat) :
    ∀ st, (enqueueBatch2 ps st).1 = (enqueueBatch ps st).1 := by
  induction ps with
  | nil => intro st; rfl
  | cons p ps ih =>
    intro st
    show (enqueueBatch2 ps (enqueueItem2 p st).1).1 = (enqueueBatch ps (enqueueItem p st).1).1
    rw [show (enqueueItem2 p st).1 = (enqueueItem p st).1 from rfl]
    exact ih _

theorem enqueueBatch2_all_log (ps : List Nat) :
    ∀ st, (enqueueBatch2 ps st).2.all isLogEvent = true := by
  induction ps with
  | nil => intro st; rfl
  | cons p ps ih =>
    intro st
    simp only [enqueueBatch2, List.all_append, Bool.and_eq_true]
    exact ⟨⟨rfl, rfl⟩, ih _⟩

theorem drainQueue2_equiv (exec : Nat → Nat → Option String) (during : List (List Nat)) :
    ∀ fuel k st,
      (drainQueue2 exec during k st fuel).1 = (drainQueue exec during k st fuel).1
      ∧ execEventsOf (drainQueue2 exec during k st fuel).2
          = execEventsOf (drainQueue exec during k st fuel).2 := by
  intro fuel
  induction fuel with
  | zero => intro k st; exact ⟨rfl, rfl⟩
  | succ fuel ih =>
    intro k st
    cases hq : st.messageQueue with
    | nil =>
      simp only [drainQueue, drainQueue2, hq]
      exact ⟨trivial, rfl⟩
    | cons item rest =>
      have hfst := enqueueBatch2_fst (during.getD k [])
        ({ st with messageQueue := rest } : QState)
      have hlog2 := enqueueBatch2_all_log (during.getD k [])
        ({ st with messageQueue := rest } : QState)
      have hlog1 := enqueueBatch_all_log (during.getD k [])
        ({ st with messageQueue := rest } : QState)
      obtain ⟨ihs, iht⟩ := ih (k + 1) (enqueueBatch (during.getD k [])
        ({ st with messageQueue := rest } : QState)).1
      cases hx : exec item.payload item.requestId with
      | none =>
        simp only [drainQueue, drainQueue2, hq, hfst, hx]
        refine ⟨ihs, ?_⟩
        simp only [execEventsOf_cons_log, execEventsOf_cons_start, execEventsOf_cons_settle,
          execEventsOf_append, execEventsOf_nil, execEventsOf_logs _ hlog2,
          execEventsOf_logs _ hlog1, List.nil_append, iht]
      | some e =>
        simp only [drainQueue, drainQueue2, hq, hfst, hx]
        refine ⟨ihs, ?_⟩
        simp only [execEventsOf_cons_log, execEventsOf_cons_start, execEventsOf_cons_settle,
          execEventsOf_append, execEventsOf_nil, execEventsOf_logs _ hlog2,
          execEventsOf_logs _ hlog1, List.nil_append, iht]

theorem processQueue2_equiv (exec : Nat → Nat → Option String) (during : List (List Nat))
    (k : Nat) (st : QState) (fuel : Nat) :
    (processQueue2 exec during k st fuel).1 = (processQueue exec during k st fuel).1
    ∧ execEventsOf (processQueue2 exec during k st fuel).2
        = execEventsOf (processQueue exec during k st fuel).2 := by
  unfold processQueue processQueue2
  cases hb : st.isQueueProcessing with
  | true =>
    rw [if_pos rfl, if_pos rfl]
    exact ⟨rfl, rfl⟩
  | false =>
    obtain ⟨hs, ht⟩ := drainQueue2_equiv exec during fuel k
      ({ st with isQueueProcessing := true } : QState)
    rw [if_neg (by simp), if_neg (by simp)]
    constructor
    · exact hs
    · show execEventsOf ([QEvent.log "processQueue called",
            QEvent.log "Starting queue processing"]
          ++ (drainQueue2 exec during k ({ st with isQueueProcessing := true } : QState) fuel).2)
          = execEventsOf
              (drainQueue exec during k ({ st with isQueueProcessing := true } : QState) fuel).2
      rw [execEventsOf_append, ht]
      rfl

theorem enqueueItem2_fst (p : Nat) (st : QState) :
    (enqueueItem2 p st).1 = (enqueueItem p st).1 := rfl

/-- C10: the two `createMessageQueueProcessor` variants are observably
equivalent apart from logging — for every input they end in the same state
(hence report the same `getQueueLength`), and their traces agree exactly once
log events are erased, so each item starts and settles with the same outcome
and in the same order in both variants. -/
theorem queue_variants_equivalent (exec : Nat → Nat → Option String) (p0 : Nat)
    (during : List (List Nat)) (fuel : Nat) :
    (runQueue2 exec p0 during fuel).1 = (runQueue1 exec p0 during fuel).1
    ∧ execEventsOf (runQueue2 exec p0 during fuel).2
        = execEventsOf (runQueue1 exec p0 during fuel).2 := by
  obtain ⟨hs, ht⟩ := processQueue2_equiv exec during 0 (enqueueItem p0 initialQState).1 fuel
  constructor
  · show (processQueue2 exec during 0 (enqueueItem2 p0 initialQState).1 fuel).1
        = (processQueue exec during 0 (enqueueItem p0 initialQState).1 fuel).1
    rw [enqueueItem2_fst]
    exact hs
  · show execEventsOf (((enqueueItem2 p0 initialQState).2
          ++ (processQueue2 exec during 0 (enqueueItem2 p0 initialQState).1 fuel).2)
          ++ [QEvent.log "Queue processing completed for enqueued message"])
        = execEventsOf ((enqueueItem p0 initialQState).2
          ++ (processQueue exec during 0 (enqueueItem p0 initialQState).1 fuel).2)
    rw [enqueueItem2_fst]
    rw [execEventsOf_append, execEventsOf_append, execEventsOf_append, ht]
    rw [show execEventsOf (enqueueItem2 p0 initialQState).2 = [] from rfl]
    rw [show execEventsOf (enqueueItem p0 initialQState).2 = [] from rfl]
    rw [show execEventsOf [QEvent.log "Queue processing completed for enqueued message"] = []
      from rfl]
    simp

end MessageQueue

namespace LiveMsg

/-- The two literal mode markers from `processSingleTelegramMessage`. -/
def quickMarker : String := "[MODE: QUICK]"

def asyncMarker : String := "[MODE: ASYNC]"

/-- JavaScript whitespace as relevant to `trim()` and `\s` for the ASCII
characters that can appear around the markers. -/
def isJsSpace (c : Char) : Bool :=
  c = ' ' || c = '\t' || c = '\n' || c = '\r' || c = '\x0b' || c = '\x0c'

def jsTrimList (l : List Char) : List Char :=
  ((l.dropWhile isJsSpace).reverse.dropWhile isJsSpace).reverse

/-- `String.prototype.trim()`. -/
def jsTrim (s : String) : String := (jsTrimList s.toList).asString

/-- `String.prototype.startsWith(pre)`. -/
def startsWithStr (pre s : String) : Bool := pre.toList.isPrefixOf s.toList

/-- `s.replace(/<marker>\s*/, '')`: remove the first occurrence of the marker
together with the whitespace run following it; unchanged when the marker does
not occur. -/
def stripMarkerList (m : List Char) : List Char → List Char
  | [] => []
  | c :: rest =>
    if m.isPrefixOf (c :: rest) then ((c :: rest).drop m.length).dropWhile isJsSpace
    else c :: stripMarkerList m rest

/-- `prefixBuffer.replace(/\[MODE: QUICK\]\s*/, '')`. -/
def replaceQuickMarker (s : String) : String :=
  (stripMarkerList quickMarker.toList s.toList).asString

/-- The configuration and injected message context of one
`processSingleTelegramMessage` invocation. `jobRef` stands for the random
`job_${generateShortId()}` reference generated in the async branch. -/
structure StreamCfg where
  maxResponseLength : Nat
  streamUpdateIntervalMs : Nat
  messageGapThresholdMs : Nat
  skipHybridMode : Bool
  originalText : String
  chatId : String
  jobRef : String

/-- The per-invocation mutable locals (the spec's StreamState).
`nextLiveId` models the platform handing out fresh live-message ids on each
successful `startLiveMessage`; `flushPending` models whether a trailing-edge
`debouncedFlush` is scheduled; `hadNonemptyFlush` is a ghost flag set when a
flush runs past the empty-text guard. -/
structure StreamSt where
  liveMessageId : Option Nat
  nextLiveId : Nat
  previewBuffer : String
  lastFlushAt : Nat
  lastChunkAt : Nat
  finalizedViaLiveMessage : Bool
  promptCompleted : Bool
  modeDetected : Bool
  isAsyncMode : Bool
  prefixBuffer : String
  flushPending : Bool
  hadNonemptyFlush : Bool
deriving Repr, DecidableEq

/-- Locals as initialized at the top of `processSingleTelegramMessage`
(`lastFlushAt = Date.now()` at entry, `modeDetected = !!skipHybridMode`). -/
def initSt (cfg : StreamCfg) (startTime : Nat) : StreamSt :=
  ⟨none, 0, "", startTime, 0, false, false, cfg.skipHybridMode, false, "", false, false⟩

/-- Operations issued to the messaging collaborator, plus the
"no valid mode prefix" warning log and the fire-and-forget scheduling call. -/
inductive MsgOp where
  | startLiveMessage (text : String)
  | updateLiveMessage (id : Nat) (text : String)
  | finalizeLiveMessage (id : Nat) (text : String)
  | sendText (text : String)
  | scheduleAsyncJob (message chatId jobRef : String)
  | warnNoMode
deriving Repr, DecidableEq

/-- `previewText()` applied to a buffer: truncate with an ellipsis beyond
`maxResponseLength` (`slice(0, maxResponseLength - 1)`; for a zero limit the
JavaScript negative slice bound drops the last character). -/
def previewTextStr (cfg : StreamCfg) (buf : String) : String :=
  if buf.length ≤ cfg.maxResponseLength then buf
  else
    (buf.toList.take
      (if cfg.maxResponseLength = 0 then buf.length - 1 else cfg.maxResponseLength - 1)).asString
      ++ "…"

/-- `flushPreview(force, allowStart)` at time `now`: guards, debounce window,
empty-text guard, lazy `startLiveMessage` (modelled as always succeeding with
the fresh id `nextLiveId`), then `updateLiveMessage`. -/
def flushPreview (cfg : StreamCfg) (force allowStart : Bool) (now : Nat) (st : StreamSt) :
    StreamSt × List MsgOp :=
  if st.finalizedViaLiveMessage || st.isAsyncMode || !st.modeDetected then (st, [])
  else if !force && now - st.lastFlushAt < cfg.streamUpdateIntervalMs then (st, [])
  else
    let st1 := { st with lastFlushAt := now }
    let text := previewTextStr cfg st1.previewBuffer
    if text = "" then (st1, [])
    else
      let st2 := { st1 with hadNonemptyFlush := true }
      match st2.liveMessageId with
      | none =>
        if !allowStart then (st2, [])
        else
          let id := st2.nextLiveId
          let st3 := { st2 with liveMessageId := some id, nextLiveId := id + 1 }
          (st3, [MsgOp.startLiveMessage text, MsgOp.updateLiveMessage id text])
      | some id => (st2, [MsgOp.updateLiveMessage id text])

/-- `finalizeCurrentMessage()` at time `now`: cancel the debounced flush, do a
forced no-start flush, finalize the current live message with the (possibly
truncated) preview text, then reset the live handle and preview buffer. -/
def finalizeCurrentMessage (cfg : StreamCfg) (now : Nat) (st : StreamSt) :
    StreamSt × List MsgOp :=
  match st.liveMessageId with
  | none => (st, [])
  | some id =>
    if st.isAsyncMode || !st.modeDetected then (st, [])
    else
      let st1 := { st with flushPending := false }
      let r1 := flushPreview cfg true false now st1
      let text := previewTextStr cfg r1.1.previewBuffer
      let st2 := { r1.1 with liveMessageId := none, previewBuffer := "", lastFlushAt := now }
      (st2, r1.2 ++ [MsgOp.finalizeLiveMessage id text])

/-- The `onChunk` callback of `runAcpPrompt` at time `now`: async suppression,
prefix-buffer mode detection (with marker stripping), the gap-based rotation
check, and the preview append plus debounced-flush scheduling. -/
def handleChunk (cfg : StreamCfg) (now : Nat) (chunk : String) (st : StreamSt) :
    StreamSt × List MsgOp :=
  if st.modeDetected && st.isAsyncMode then (st, [])
  else
    let gapSinceLastChunk := if st.lastChunkAt > 0 then now - st.lastChunkAt else 0
    if !st.modeDetected then
      let stP := { st with prefixBuffer := st.prefixBuffer ++ chunk }
      let trimmed := jsTrim stP.prefixBuffer
      let stD :=
        if startsWithStr quickMarker trimmed then
          { stP with modeDetected := true, isAsyncMode := false,
                     previewBuffer := stP.previewBuffer ++ replaceQuickMarker stP.prefixBuffer }
        else if startsWithStr asyncMarker trimmed then
          { stP with modeDetected := true, isAsyncMode := true }
        else stP
      if stD.modeDetected && !stD.isAsyncMode then ({ stD with flushPending := true }, [])
      else (stD, [])
    else
      let r :=
        if gapSinceLastChunk > cfg.messageGapThresholdMs && st.liveMessageId.isSome
            && jsTrim st.previewBuffer ≠ "" then
          finalizeCurrentMessage cfg now st
        else (st, [])
      ({ r.1 with lastChunkAt := now, previewBuffer := r.1.previewBuffer ++ chunk,
                  flushPending := true }, r.2)

/-- A firing of the lodash trailing-edge debounced flush at time `now`. -/
def handleTimer (cfg : StreamCfg) (now : Nat) (st : StreamSt) : StreamSt × List MsgOp :=
  if st.flushPending then
    flushPreview cfg true true now { st with flushPending := false }
  else (st, [])

def asyncFallbackText : String :=
  "[MODE: ASYNC] I\x27ve scheduled this task. I\x27ll notify you when it\x27s done."

/-- The `if (!modeDetected)` block after `runAcpPrompt` resolves: end-of-stream
classification of the accumulated prefix buffer, with the warned quick
fallback when no marker ever matched. -/
def resolveModeAtEnd (st0 : StreamSt) : StreamSt × List MsgOp :=
  if !st0.modeDetected then
    let trimmed := jsTrim st0.prefixBuffer
    if startsWithStr asyncMarker trimmed then
      ({ st0 with isAsyncMode := true, modeDetected := true }, [])
    else if startsWithStr quickMarker trimmed then
      ({ st0 with previewBuffer := replaceQuickMarker st0.prefixBuffer, modeDetected := true },
       [])
    else
      ({ st0 with modeDetected := true, isAsyncMode := false,
                  previewBuffer := st0.prefixBuffer },
       [MsgOp.warnNoMode])
  else (st0, [])

/-- Delivery after the mode is resolved: the async acknowledgment branch
(fire-and-forget schedule + `sendText` of the raw response with the job
reference footer), or the quick completion (cancel the debounce, final forced
flush, then `finalizeLiveMessage` with the raw preview buffer, or a plain
`sendText` when no live message was ever started). -/
def finishPrompt (cfg : StreamCfg) (now : Nat) (fullResponse : String) (st1 : StreamSt) :
    StreamSt × List MsgOp :=
  if st1.isAsyncMode then
    let trimmedFull := jsTrim fullResponse
    let finalMsg0 := if trimmedFull = "" then asyncFallbackText else trimmedFull
    let finalMsg := finalMsg0 ++ "\n\nReference: " ++ cfg.jobRef
    (st1, [MsgOp.scheduleAsyncJob cfg.originalText cfg.chatId cfg.jobRef,
           MsgOp.sendText finalMsg])
  else
    let r1 := flushPreview cfg true true now { st1 with flushPending := false }
    let st2 := r1.1
    match st2.liveMessageId with
    | some id =>
      ({ st2 with finalizedViaLiveMessage := true },
       r1.2 ++ [MsgOp.finalizeLiveMessage id
         (if st2.previewBuffer = "" then "No response received." else st2.previewBuffer)])
    | none =>
      (st2, r1.2 ++ [MsgOp.sendText
        (if st2.previewBuffer = "" then "No response received." else st2.previewBuffer)])

/-- The code after `await runAcpPrompt(...)` resolves with `fullResponse` at
time `now`: set `promptCompleted`, run the end-of-stream mode fallback, then
deliver per mode. -/
def handleDone (cfg : StreamCfg) (now : Nat) (fullResponse : String) (st : StreamSt) :
    StreamSt × List MsgOp :=
  let st0 := { st with promptCompleted := true }
  let rF := resolveModeAtEnd st0
  let r2 := finishPrompt cfg now fullResponse rF.1
  (r2.1, rF.2 ++ r2.2)

/-- Environment events of one prompt invocation: a decoded chunk arriving, the
debounce timer firing, and the prompt promise resolving. -/
inductive StreamEv where
  | chunk (now : Nat) (text : String)
  | timer (now : Nat)
  | done (now : Nat) (fullResponse : String)
deriving Repr, DecidableEq

def stepEv (cfg : StreamCfg) (st : StreamSt) : StreamEv → StreamSt × List MsgOp
  | StreamEv.chunk now text => handleChunk cfg now text st
  | StreamEv.timer now => handleTimer cfg now st
  | StreamEv.done now full => handleDone cfg now full st

def runStream (cfg : StreamCfg) : StreamSt → List StreamEv → StreamSt × List MsgOp
  | st, [] => (st, [])
  | st, ev :: rest =>
    let r1 := stepEv cfg st ev
    let r2 := runStream cfg r1.1 rest
    (r2.1, r1.2 ++ r2.2)

def runPipeline (cfg : StreamCfg) (startTime : Nat) (events : List StreamEv) :
    StreamSt × List MsgOp :=
  runStream cfg (initSt cfg startTime) events

/-- All string payloads an operation hands to the messaging collaborator. -/
def opTexts : MsgOp → List String
  | MsgOp.startLiveMessage t => [t]
  | MsgOp.updateLiveMessage _ t => [t]
  | MsgOp.finalizeLiveMessage _ t => [t]
  | MsgOp.sendText t => [t]
  | MsgOp.scheduleAsyncJob _ _ _ => []
  | MsgOp.warnNoMode => []

/-- Whether `m` occurs as a contiguous run anywhere in `l`. -/
def containsSub (m : List Char) : List Char → Bool
  | [] => m.isEmpty
  | c :: rest => m.isPrefixOf (c :: rest) || containsSub m rest

def containsMarkerStart (s : String) : Bool :=
  containsSub "[MODE:".toList s.toList

def opMentionsMarker (op : MsgOp) : Bool :=
  (opTexts op).any containsMarkerStart

def opIsFinalize : MsgOp → Bool
  | MsgOp.finalizeLiveMessage _ _ => true
  | _ => false

theorem previewTextStr_ne_empty (cfg : StreamCfg) (buf : String) (h : buf ≠ "") :
    previewTextStr cfg buf ≠ "" := by
  unfold previewTextStr
  split
  · exact h
  · intro hc
    have hlen := congrArg String.length hc
    rw [String.length_append] at hlen
    have h1 : ("…" : String).length = 1 := rfl
    have h2 : ("" : String).length = 0 := rfl
    omega

theorem ne_empty_of_jsTrim_ne (s : String) (h : jsTrim s ≠ "") : s ≠ "" := by
  intro hs; rw [hs] at h; exact h rfl

/-- The spec's StreamState invariant: a live message handle exists only once
the mode is decided Quick and some flush has run past the empty-text guard. -/
def LiveInv (st : StreamSt) : Prop :=
  st.liveMessageId.isSome = true →
    st.modeDetected = true ∧ st.isAsyncMode = false ∧ st.hadNonemptyFlush = true

theorem flushPreview_frame (cfg : StreamCfg) (force allowStart : Bool) (now : Nat)
    (st : StreamSt) :
    (flushPreview cfg force allowStart now st).1.modeDetected = st.modeDetected
    ∧ (flushPreview cfg force allowStart now st).1.isAsyncMode = st.isAsyncMode
    ∧ (flushPreview cfg force allowStart now st).1.previewBuffer = st.previewBuffer
    ∧ (flushPreview cfg force allowStart now st).1.finalizedViaLiveMessage
        = st.finalizedViaLiveMessage
    ∧ (flushPreview cfg force allowStart now st).1.prefixBuffer = st.prefixBuffer
    ∧ (flushPreview cfg force allowStart now st).1.flushPending = st.flushPending := by
  simp only [flushPreview]
  repeat' split
  all_goals simp

theorem flushPreview_inv (cfg : StreamCfg) (force allowStart : Bool) (now : Nat)
    (st : StreamSt) (h : LiveInv st) :
    LiveInv (flushPreview cfg force allowStart now st).1 := by
  simp only [flushPreview]
  split
  next hguard => exact h
  next hguard =>
    have hg : (st.finalizedViaLiveMessage = false ∧ st.isAsyncMode = false)
        ∧ st.modeDetected = true := by
      simpa using hguard
    split
    next => exact h
    next =>
      split
      next => exact h
      next htext =>
        split
        next heq =>
          split
          next => exact fun hsome => ⟨(h hsome).1, (h hsome).2.1, rfl⟩
          next => exact fun _ => ⟨hg.2, hg.1.2, rfl⟩
        next id heq => exact fun _ => ⟨hg.2, hg.1.2, rfl⟩

theorem finalizeCurrentMessage_frame (cfg : StreamCfg) (now : Nat) (st : StreamSt) :
    (finalizeCurrentMessage cfg now st).1.modeDetected = st.modeDetected
    ∧ (finalizeCurrentMessage cfg now st).1.isAsyncMode = st.isAsyncMode := by
  simp only [finalizeCurrentMessage]
  repeat' split
  all_goals simp [flushPreview_frame]

theorem finalizeCurrentMessage_inv (cfg : StreamCfg) (now : Nat) (st : StreamSt)
    (h : LiveInv st) : LiveInv (finalizeCurrentMessage cfg now st).1 := by
  simp only [finalizeCurrentMessage]
  split
  next => exact h
  next id heq =>
    split
    next => exact h
    next =>
      intro hsome
      simp at hsome

theorem handleChunk_inv (cfg : StreamCfg) (now : Nat) (chunk : String) (st : StreamSt)
    (h : LiveInv st) : LiveInv (handleChunk cfg now chunk st).1 := by
  simp only [handleChunk]
  split
  next => exact h
  next =>
    split
    next hmode =>
      have hm : st.modeDetected = false := by simpa using hmode
      repeat' split
      all_goals exact fun hsome => absurd (h hsome).1 (by simp [hm])
    next =>
      split <;>
      · split
        next => exact fun hsome => (finalizeCurrentMessage_inv cfg now st h) hsome
        next => exact h

theorem handleTimer_inv (cfg : StreamCfg) (now : Nat) (st : StreamSt) (h : LiveInv st) :
    LiveInv (handleTimer cfg now st).1 := by
  simp only [handleTimer]
  split
  next => exact flushPreview_inv cfg true true now _ h
  next => exact h

theorem resolveModeAtEnd_inv (st0 : StreamSt) (h : LiveInv st0) :
    LiveInv (resolveModeAtEnd st0).1 := by
  simp only [resolveModeAtEnd]
  split
  next hmode =>
    have hm : st0.modeDetected = false := by simpa using hmode
    repeat' split
    all_goals exact fun hsome => absurd (h hsome).1 (by simp [hm])
  next => exact h

theorem finishPrompt_inv (cfg : StreamCfg) (now : Nat) (full : String) (st1 : StreamSt)
    (h : LiveInv st1) : LiveInv (finishPrompt cfg now full st1).1 := by
  simp only [finishPrompt]
  split
  next => exact h
  next =>
    have h2 := flushPreview_inv cfg true true now { st1 with flushPending := false } h
    split
    next id heq => exact fun hsome => h2 hsome
    next heq => exact h2

theorem handleDone_inv (cfg : StreamCfg) (now : Nat) (full : String) (st : StreamSt)
    (h : LiveInv st) : LiveInv (handleDone cfg now full st).1 := by
  simp only [handleDone]
  exact finishPrompt_inv cfg now full _ (resolveModeAtEnd_inv _ h)

theorem stepEv_inv (cfg : StreamCfg) (st : StreamSt) (ev : StreamEv) (h : LiveInv st) :
    LiveInv (stepEv cfg st ev).1 := by
  cases ev with
  | chunk now text => exact handleChunk_inv cfg now text st h
  | timer now => exact handleTimer_inv cfg now st h
  | done now full => exact handleDone_inv cfg now full st h

theorem runStream_inv (cfg : StreamCfg) :
    ∀ events st, LiveInv st → LiveInv (runStream cfg st events).1 := by
  intro events
  induction events with
  | nil => intro st h; exact h
  | cons ev rest ih =>
    intro st h
    exact ih _ (stepEv_inv cfg st ev h)

theorem resolveModeAtEnd_detected (st0 : StreamSt) (h : st0.modeDetected = true) :
    resolveModeAtEnd st0 = (st0, []) := by
  simp [resolveModeAtEnd, h]

theorem finishPrompt_frame (cfg : StreamCfg) (now : Nat) (full : String) (st1 : StreamSt) :
    (finishPrompt cfg now full st1).1.modeDetected = st1.modeDetected
    ∧ (finishPrompt cfg now full st1).1.isAsyncMode = st1.isAsyncMode := by
  simp only [finishPrompt]
  repeat' split
  all_goals simp [flushPreview_frame]

theorem handleChunk_mode (cfg : StreamCfg) (now : Nat) (chunk : String) (st : StreamSt)
    (h : st.modeDetected = true) :
    (handleChunk cfg now chunk st).1.modeDetected = true
    ∧ (handleChunk cfg now chunk st).1.isAsyncMode = st.isAsyncMode := by
  simp only [handleChunk]
  split
  next => exact ⟨h, rfl⟩
  next =>
    split
    next hmode => rw [h] at hmode; simp at hmode
    next =>
      split <;>
      · split
        next =>
          refine ⟨?_, ?_⟩
          · show (finalizeCurrentMessage cfg now st).1.modeDetected = true
            rw [(finalizeCurrentMessage_frame cfg now st).1]; exact h
          · show (finalizeCurrentMessage cfg now st).1.isAsyncMode = st.isAsyncMode
            exact (finalizeCurrentMessage_frame cfg now st).2
        next => exact ⟨h, rfl⟩

theorem handleTimer_mode (cfg : StreamCfg) (now : Nat) (st : StreamSt)
    (h : st.modeDetected = true) :
    (handleTimer cfg now st).1.modeDetected = true
    ∧ (handleTimer cfg now st).1.isAsyncMode = st.isAsyncMode := by
  simp only [handleTimer]
  split
  next =>
    refine ⟨?_, ?_⟩
    · show (flushPreview cfg true true now { st with flushPending := false }).1.modeDetected
          = true
      rw [(flushPreview_frame cfg true true now { st with flushPending := false }).1]
      exact h
    · exact (flushPreview_frame cfg true true now { st with flushPending := false }).2.1
  next => exact ⟨h, rfl⟩

theorem handleDone_mode (cfg : StreamCfg) (now : Nat) (full : String) (st : StreamSt)
    (h : st.modeDetected = true) :
    (handleDone cfg now full st).1.modeDetected = true
    ∧ (handleDone cfg now full st).1.isAsyncMode = st.isAsyncMode := by
  simp only [handleDone]
  rw [resolveModeAtEnd_detected { st with promptCompleted := true } h]
  refine ⟨?_, ?_⟩
  · rw [(finishPrompt_frame cfg now full { st with promptCompleted := true }).1]; exact h
  · exact (finishPrompt_frame cfg now full { st with promptCompleted := true }).2

theorem stepEv_mode (cfg : StreamCfg) (st : StreamSt) (ev : StreamEv)
    (h : st.modeDetected = true) :
    (stepEv cfg st ev).1.modeDetected = true
    ∧ (stepEv cfg st ev).1.isAsyncMode = st.isAsyncMode := by
  cases ev with
  | chunk now text => exact handleChunk_mode cfg now text st h
  | timer now => exact handleTimer_mode cfg now st h
  | done now full => exact handleDone_mode cfg now full st h

theorem runStream_mode (cfg : StreamCfg) :
    ∀ events st, st.modeDetected = true →
      (runStream cfg st events).1.modeDetected = true
      ∧ (runStream cfg st events).1.isAsyncMode = st.isAsyncMode := by
  intro events
  induction events with
  | nil => intro st h; exact ⟨h, rfl⟩
  | cons ev rest ih =>
    intro st h
    obtain ⟨h1, h2⟩ := stepEv_mode cfg st ev h
    obtain ⟨h3, h4⟩ := ih _ h1
    exact ⟨h3, h4.trans h2⟩

theorem runStream_cons (cfg : StreamCfg) (st : StreamSt) (ev : StreamEv)
    (l : List StreamEv) :
    runStream cfg st (ev :: l)
      = ((runStream cfg (stepEv cfg st ev).1 l).1,
         (stepEv cfg st ev).2 ++ (runStream cfg (stepEv cfg st ev).1 l).2) := rfl

theorem runStream_append (cfg : StreamCfg) :
    ∀ l1 l2 st,
      runStream cfg st (l1 ++ l2)
        = ((runStream cfg (runStream cfg st l1).1 l2).1,
           (runStream cfg st l1).2 ++ (runStream cfg (runStream cfg st l1).1 l2).2) := by
  intro l1
  induction l1 with
  | nil => intro l2 st; simp [runStream]
  | cons ev rest ih =>
    intro l2 st
    rw [List.cons_append, runStream_cons, runStream_cons, ih]
    simp [List.append_assoc]

def cfgC3 : StreamCfg := ⟨4096, 100, 1000, false, "hi there", "chat1", "job_abc123"⟩

def eventsC3 : List StreamEv :=
  [StreamEv.chunk 0 "[MO", StreamEv.chunk 1 "DE: QUICK] Hel", StreamEv.chunk 2 "lo",
   StreamEv.done 3 "[MODE: QUICK] Hello"]

/-- C3: on the chunk sequence "[MO", "DE: QUICK] Hel", "lo" the classifier
decides Quick, the accumulated visible text is exactly "Hello", every text
handed to the live-message or send operations is "Hello", and no delivered
text ever contains the marker. -/
theorem classifier_split_marker_quick :
    (runPipeline cfgC3 0 eventsC3).1.modeDetected = true
    ∧ (runPipeline cfgC3 0 eventsC3).1.isAsyncMode = false
    ∧ (runPipeline cfgC3 0 eventsC3).1.previewBuffer = "Hello"
    ∧ (runPipeline cfgC3 0 eventsC3).2
        = [MsgOp.startLiveMessage "Hello", MsgOp.updateLiveMessage 0 "Hello",
           MsgOp.finalizeLiveMessage 0 "Hello"]
    ∧ (runPipeline cfgC3 0 eventsC3).2.all (fun op => !opMentionsMarker op) = true := by
  decide

/-- C6: throughout any prompt invocation (any event sequence), the live
message handle is set only once the mode is decided Quick and a non-empty
flush has run, and once decided the mode never changes (so it transitions
Undecided to Quick or Async at most once). -/
theorem streamState_invariant (cfg : StreamCfg) (startTime : Nat)
    (events extra : List StreamEv) :
    ((runPipeline cfg startTime events).1.liveMessageId.isSome = true →
      (runPipeline cfg startTime events).1.modeDetected = true
      ∧ (runPipeline cfg startTime events).1.isAsyncMode = false
      ∧ (runPipeline cfg startTime events).1.hadNonemptyFlush = true)
    ∧ ((runPipeline cfg startTime events).1.modeDetected = true →
      (runPipeline cfg startTime (events ++ extra)).1.modeDetected = true
      ∧ (runPipeline cfg startTime (events ++ extra)).1.isAsyncMode
          = (runPipeline cfg startTime events).1.isAsyncMode) := by
  constructor
  · exact runStream_inv cfg events (initSt cfg startTime)
      (fun hsome => by simp [initSt] at hsome)
  · intro hmode
    show (runStream cfg (initSt cfg startTime) (events ++ extra)).1.modeDetected = true
      ∧ (runStream cfg (initSt cfg startTime) (events ++ extra)).1.isAsyncMode
          = (runPipeline cfg startTime events).1.isAsyncMode
    rw [runStream_append]
    exact runStream_mode cfg extra _ hmode

def cfgC5 : StreamCfg := ⟨100, 5, 10, false, "txt", "chat", "jobref"⟩

def eventsW6 : List StreamEv := [StreamEv.chunk 0 "[MODE: QUICK] Hi", StreamEv.timer 5]

theorem streamState_invariant_witness :
    ((runPipeline cfgC5 0 eventsW6).1.modeDetected = true
      ∧ (runPipeline cfgC5 0 eventsW6).1.isAsyncMode = false
      ∧ (runPipeline cfgC5 0 eventsW6).1.hadNonemptyFlush = true)
    ∧ ((runPipeline cfgC5 0 (eventsW6 ++ [StreamEv.chunk 6 "!"])).1.modeDetected = true
      ∧ (runPipeline cfgC5 0 (eventsW6 ++ [StreamEv.chunk 6 "!"])).1.isAsyncMode
          = (runPipeline cfgC5 0 eventsW6).1.isAsyncMode) :=
  ⟨(streamState_invariant cfgC5 0 eventsW6 [StreamEv.chunk 6 "!"]).1 (by decide),
   (streamState_invariant cfgC5 0 eventsW6 [StreamEv.chunk 6 "!"]).2 (by decide)⟩

theorem resolveModeAtEnd_fallback (st0 : StreamSt)
    (hmode : st0.modeDetected = false)
    (hq : startsWithStr quickMarker (jsTrim st0.prefixBuffer) = false)
    (ha : startsWithStr asyncMarker (jsTrim st0.prefixBuffer) = false) :
    resolveModeAtEnd st0
      = ({ st0 with modeDetected := true, isAsyncMode := false,
                    previewBuffer := st0.prefixBuffer }, [MsgOp.warnNoMode]) := by
  simp [resolveModeAtEnd, hmode, hq, ha]

theorem flushPreview_fresh (cfg : StreamCfg) (allowStart : Bool) (now : Nat) (st : StreamSt)
    (hfin : st.finalizedViaLiveMessage = false) (hasync : st.isAsyncMode = false)
    (hmode : st.modeDetected = true) (hlive : st.liveMessageId = none)
    (hallow : allowStart = true) (hne : st.previewBuffer ≠ "") :
    flushPreview cfg true allowStart now st
      = ({ st with lastFlushAt := now, hadNonemptyFlush := true,
                   liveMessageId := some st.nextLiveId, nextLiveId := st.nextLiveId + 1 },
         [MsgOp.startLiveMessage (previewTextStr cfg st.previewBuffer),
          MsgOp.updateLiveMessage st.nextLiveId (previewTextStr cfg st.previewBuffer)]) := by
  have htext := previewTextStr_ne_empty cfg st.previewBuffer hne
  simp only [flushPreview, hfin, hasync, hmode, hlive, hallow]
  simp [htext]

theorem flushPreview_existing (cfg : StreamCfg) (allowStart : Bool) (now : Nat)
    (st : StreamSt) (i : Nat)
    (hfin : st.finalizedViaLiveMessage = false) (hasync : st.isAsyncMode = false)
    (hmode : st.modeDetected = true) (hlive : st.liveMessageId = some i)
    (hne : st.previewBuffer ≠ "") :
    flushPreview cfg true allowStart now st
      = ({ st with lastFlushAt := now, hadNonemptyFlush := true },
         [MsgOp.updateLiveMessage i (previewTextStr cfg st.previewBuffer)]) := by
  have htext := previewTextStr_ne_empty cfg st.previewBuffer hne
  simp only [flushPreview, hfin, hasync, hmode, hlive]
  simp [htext]

/-- C4: when the full response never matched either marker, the end-of-stream
handler warns, falls back to Quick, and delivers the accumulated prefix buffer
unmodified (the final `finalizeLiveMessage` text is the raw buffer), not an
error. -/
theorem classifier_no_marker_fallback (cfg : StreamCfg) (st : StreamSt) (now : Nat)
    (full : String)
    (hmode : st.modeDetected = false)
    (hq : startsWithStr quickMarker (jsTrim st.prefixBuffer) = false)
    (ha : startsWithStr asyncMarker (jsTrim st.prefixBuffer) = false)
    (hlive : st.liveMessageId = none)
    (hfin : st.finalizedViaLiveMessage = false)
    (hne : st.prefixBuffer ≠ "") :
    (handleDone cfg now full st).1.modeDetected = true
    ∧ (handleDone cfg now full st).1.isAsyncMode = false
    ∧ (handleDone cfg now full st).1.previewBuffer = st.prefixBuffer
    ∧ (handleDone cfg now full st).2
        = [MsgOp.warnNoMode,
           MsgOp.startLiveMessage (previewTextStr cfg st.prefixBuffer),
           MsgOp.updateLiveMessage st.nextLiveId (previewTextStr cfg st.prefixBuffer),
           MsgOp.finalizeLiveMessage st.nextLiveId st.prefixBuffer] := by
  have hres := resolveModeAtEnd_fallback { st with promptCompleted := true } hmode hq ha
  have hflush := flushPreview_fresh cfg true now
    ({ st with promptCompleted := true, modeDetected := true, isAsyncMode := false,
               previewBuffer := st.prefixBuffer, flushPending := false } : StreamSt)
    hfin rfl rfl hlive rfl hne
  simp only [handleDone, hres, finishPrompt, hflush]
  simp [hne]

theorem classifier_no_marker_fallback_witness :
    (handleDone cfgC3 1 "42" (runPipeline cfgC3 0 [StreamEv.chunk 0 "42"]).1).1.modeDetected
        = true
    ∧ (handleDone cfgC3 1 "42" (runPipeline cfgC3 0 [StreamEv.chunk 0 "42"]).1).1.isAsyncMode
        = false
    ∧ (handleDone cfgC3 1 "42" (runPipeline cfgC3 0 [StreamEv.chunk 0 "42"]).1).1.previewBuffer
        = (runPipeline cfgC3 0 [StreamEv.chunk 0 "42"]).1.prefixBuffer
    ∧ (handleDone cfgC3 1 "42" (runPipeline cfgC3 0 [StreamEv.chunk 0 "42"]).1).2
        = [MsgOp.warnNoMode,
           MsgOp.startLiveMessage (previewTextStr cfgC3
             (runPipeline cfgC3 0 [StreamEv.chunk 0 "42"]).1.prefixBuffer),
           MsgOp.updateLiveMessage (runPipeline cfgC3 0 [StreamEv.chunk 0 "42"]).1.nextLiveId
             (previewTextStr cfgC3 (runPipeline cfgC3 0 [StreamEv.chunk 0 "42"]).1.prefixBuffer),
           MsgOp.finalizeLiveMessage (runPipeline cfgC3 0 [StreamEv.chunk 0 "42"]).1.nextLiveId
             (runPipeline cfgC3 0 [StreamEv.chunk 0 "42"]).1.prefixBuffer] :=
  classifier_no_marker_fallback cfgC3 (runPipeline cfgC3 0 [StreamEv.chunk 0 "42"]).1 1 "42"
    (by decide) (by decide) (by decide) (by decide) (by decide) (by decide)

/-- C5 (amended): a gap strictly greater than `messageGapThresholdMs` between
two chunks while a live message is active and the pending preview is
non-blank finalizes the current live message (update then
`finalizeLiveMessage`) before the second chunk is appended, clears the live
handle, and the next debounced flush starts a fresh live message. -/
theorem gap_rotation_amended (cfg : StreamCfg) (st : StreamSt) (now later : Nat)
    (c : String) (i : Nat)
    (hmode : st.modeDetected = true) (hasync : st.isAsyncMode = false)
    (hlive : st.liveMessageId = some i)
    (htrim : jsTrim st.previewBuffer ≠ "")
    (hlast : 0 < st.lastChunkAt)
    (hgap : cfg.messageGapThresholdMs < now - st.lastChunkAt)
    (hfin : st.finalizedViaLiveMessage = false)
    (hc : c ≠ "") :
    (handleChunk cfg now c st).2
      = [MsgOp.updateLiveMessage i (previewTextStr cfg st.previewBuffer),
         MsgOp.finalizeLiveMessage i (previewTextStr cfg st.previewBuffer)]
    ∧ (handleChunk cfg now c st).1.liveMessageId = none
    ∧ (handleChunk cfg now c st).1.previewBuffer = c
    ∧ (handleTimer cfg later (handleChunk cfg now c st).1).2
        = [MsgOp.startLiveMessage (previewTextStr cfg c),
           MsgOp.updateLiveMessage st.nextLiveId (previewTextStr cfg c)] := by
  obtain ⟨lv, nid, pb, lf, lc, fin, pc, md, am, pfx, fp, hnf⟩ := st
  replace hmode : md = true := hmode
  replace hasync : am = false := hasync
  replace hlive : lv = some i := hlive
  replace hfin : fin = false := hfin
  replace htrim : jsTrim pb ≠ "" := htrim
  replace hlast : 0 < lc := hlast
  replace hgap : cfg.messageGapThresholdMs < now - lc := hgap
  subst hmode; subst hasync; subst hlive; subst hfin
  have hne := ne_empty_of_jsTrim_ne pb htrim
  have htext := previewTextStr_ne_empty cfg pb hne
  have htextc := previewTextStr_ne_empty cfg c hc
  simp [handleChunk, finalizeCurrentMessage, flushPreview, handleTimer, hlast, hgap, htrim,
    htext, htextc, hc]

def eventsC5 : List StreamEv :=
  [StreamEv.chunk 0 "[MODE: QUICK] Hi", StreamEv.timer 5, StreamEv.chunk 6 "!"]

theorem gap_rotation_amended_witness :
    (handleChunk cfgC5 17 "x" (runPipeline cfgC5 0 eventsC5).1).2
      = [MsgOp.updateLiveMessage 0 (previewTextStr cfgC5
           (runPipeline cfgC5 0 eventsC5).1.previewBuffer),
         MsgOp.finalizeLiveMessage 0 (previewTextStr cfgC5
           (runPipeline cfgC5 0 eventsC5).1.previewBuffer)]
    ∧ (handleChunk cfgC5 17 "x" (runPipeline cfgC5 0 eventsC5).1).1.liveMessageId = none
    ∧ (handleChunk cfgC5 17 "x" (runPipeline cfgC5 0 eventsC5).1).1.previewBuffer = "x"
    ∧ (handleTimer cfgC5 20 (handleChunk cfgC5 17 "x" (runPipeline cfgC5 0 eventsC5).1).1).2
        = [MsgOp.startLiveMessage (previewTextStr cfgC5 "x"),
           MsgOp.updateLiveMessage (runPipeline cfgC5 0 eventsC5).1.nextLiveId
             (previewTextStr cfgC5 "x")] :=
  gap_rotation_amended cfgC5 (runPipeline cfgC5 0 eventsC5).1 17 20 "x" 0
    (by decide) (by decide) (by decide) (by decide) (by decide) (by decide) (by decide)
    (by decide)

/-- C5 counterexample: with the gap exactly equal to `messageGapThresholdMs`
(10ms threshold, chunk at 6, next chunk at 16) while a live message is active
and the preview is non-blank, the chunk handler issues no
`finalizeLiveMessage` at all, because the source compares with a strict `>`;
the claim as stated (rotation at gap greater than or equal to the threshold)
is false. -/
theorem gap_rotation_counterexample :
    (runPipeline cfgC5 0 eventsC5).1.liveMessageId.isSome = true
    ∧ jsTrim (runPipeline cfgC5 0 eventsC5).1.previewBuffer ≠ ""
    ∧ (runPipeline cfgC5 0 eventsC5).1.lastChunkAt = 6
    ∧ 16 - (runPipeline cfgC5 0 eventsC5).1.lastChunkAt = cfgC5.messageGapThresholdMs
    ∧ (handleChunk cfgC5 16 "?" (runPipeline cfgC5 0 eventsC5).1).2.all
        (fun op => !opIsFinalize op) = true := by
  decide

end LiveMsg

namespace TempAcp

/-- A `sessionUpdate` notification from the subprocess connection: either an
`agent_message_chunk` with text content, or any other update (different
session, non-text content, other update kinds), which only counts as
activity. -/
inductive AcpUpdate where
  | agentTextChunk (sessionId : String) (text : String)
  | otherActivity (sessionId : String)
deriving Repr, DecidableEq

/-- One step of the `tempClient.sessionUpdate` handler feeding
`tempCollector.append`: only text chunks of the open session are appended
(`response += chunk`), everything else leaves the buffer unchanged. -/
def sessionUpdateStep (sid : String) (response : String) : AcpUpdate → String
  | AcpUpdate.agentTextChunk s t => if s = sid then response ++ t else response
  | AcpUpdate.otherActivity _ => response

/-- The collector buffer after the whole update stream (starting from
`let response = ''`). -/
def collectResponse (sid : String) (updates : List AcpUpdate) : String :=
  updates.foldl (sessionUpdateStep sid) ""

/-- The text chunks actually delivered to the collector, in arrival order. -/
def deliveredChunks (sid : String) (updates : List AcpUpdate) : List String :=
  updates.filterMap fun u =>
    match u with
    | AcpUpdate.agentTextChunk s t => if s = sid then some t else none
    | AcpUpdate.otherActivity _ => none

def concatChunks (l : List String) : String := l.foldl (fun a b => a ++ b) ""

inductive StopReason where
  | endTurn
  | cancelled
  | other
deriving Repr, DecidableEq

/-- The `.then` handler of `tempConnection.prompt(...)`: reject when the
prompt was cancelled with an empty buffer, otherwise resolve with
`response || 'No response received.'`. -/
def promptOutcome (sid : String) (updates : List AcpUpdate) (stop : StopReason) :
    Except String String :=
  let response := collectResponse sid updates
  if stop = StopReason.cancelled ∧ response = "" then
    Except.error "Scheduler Gemini ACP prompt was cancelled"
  else
    Except.ok (if response = "" then "No response received." else response)

theorem concatChunks_from (l : List String) :
    ∀ a, l.foldl (fun x y => x ++ y) a = a ++ concatChunks l := by
  induction l with
  | nil => intro a; simp [concatChunks]
  | cons t l ih =>
    intro a
    show l.foldl (fun x y => x ++ y) (a ++ t) = a ++ concatChunks (t :: l)
    rw [ih (a ++ t)]
    show a ++ t ++ concatChunks l = a ++ List.foldl (fun x y => x ++ y) ("" ++ t) l
    rw [ih ("" ++ t)]
    simp [String.append_assoc]

theorem collectResponse_eq (sid : String) (updates : List AcpUpdate) :
    collectResponse sid updates = concatChunks (deliveredChunks sid updates) := by
  suffices h : ∀ a, updates.foldl (sessionUpdateStep sid) a
      = a ++ concatChunks (deliveredChunks sid updates) by
    simpa using h ""
  induction updates with
  | nil => intro a; simp [deliveredChunks, concatChunks]
  | cons u rest ih =>
    intro a
    cases u with
    | agentTextChunk s t =>
      by_cases hs : s = sid
      · show rest.foldl (sessionUpdateStep sid) (if s = sid then a ++ t else a) = _
        rw [if_pos hs, ih (a ++ t)]
        have hd : deliveredChunks sid (AcpUpdate.agentTextChunk s t :: rest)
            = t :: deliveredChunks sid rest := by
          simp [deliveredChunks, hs]
        rw [hd]
        show a ++ t ++ concatChunks (deliveredChunks sid rest)
            = a ++ List.foldl (fun x y => x ++ y) ("" ++ t) (deliveredChunks sid rest)
        rw [concatChunks_from (deliveredChunks sid rest) ("" ++ t)]
        simp [String.append_assoc]
      · show rest.foldl (sessionUpdateStep sid) (if s = sid then a ++ t else a) = _
        rw [if_neg hs, ih a]
        have hd : deliveredChunks sid (AcpUpdate.agentTextChunk s t :: rest)
            = deliveredChunks sid rest := by
          simp [deliveredChunks, hs]
        rw [hd]
    | otherActivity s =>
      show rest.foldl (sessionUpdateStep sid) a = _
      rw [ih a]
      have hd : deliveredChunks sid (AcpUpdate.otherActivity s :: rest)
          = deliveredChunks sid rest := by
        simp [deliveredChunks]
      rw [hd]

deriving instance DecidableEq for Except

/-- C2 counterexample: on normal completion with no chunks delivered, the
promise resolves with the literal fallback text, not with the (empty)
concatenation of the delivered chunks; the claim as stated is false. -/
theorem run_resolves_concat_counterexample :
    ¬ promptOutcome "s1" [] StopReason.endTurn
        = Except.ok (concatChunks (deliveredChunks "s1" [])) := by
  decide

/-- C2 (amended): on normal (non-cancelled) completion, the promise resolves
with exactly the concatenation, in arrival order, of the text chunks the
collector received — except when that concatenation is empty, in which case
it resolves with the fixed text "No response received.". -/
theorem run_resolves_concat (sid : String) (updates : List AcpUpdate) (stop : StopReason)
    (hstop : stop ≠ StopReason.cancelled) :
    promptOutcome sid updates stop
      = Except.ok (if concatChunks (deliveredChunks sid updates) = ""
                   then "No response received."
                   else concatChunks (deliveredChunks sid updates)) := by
  unfold promptOutcome
  rw [collectResponse_eq]
  rw [if_neg (by intro hand; exact hstop hand.1)]

theorem run_resolves_concat_witness :
    promptOutcome "s1"
        [AcpUpdate.agentTextChunk "s1" "Hel", AcpUpdate.otherActivity "s1",
         AcpUpdate.agentTextChunk "other" "XX", AcpUpdate.agentTextChunk "s1" "lo"]
        StopReason.endTurn
      = Except.ok (if concatChunks (deliveredChunks "s1"
            [AcpUpdate.agentTextChunk "s1" "Hel", AcpUpdate.otherActivity "s1",
             AcpUpdate.agentTextChunk "other" "XX", AcpUpdate.agentTextChunk "s1" "lo"]) = ""
          then "No response received."
          else concatChunks (deliveredChunks "s1"
            [AcpUpdate.agentTextChunk "s1" "Hel", AcpUpdate.otherActivity "s1",
             AcpUpdate.agentTextChunk "other" "XX", AcpUpdate.agentTextChunk "s1" "lo"])) :=
  run_resolves_concat "s1"
    [AcpUpdate.agentTextChunk "s1" "Hel", AcpUpdate.otherActivity "s1",
     AcpUpdate.agentTextChunk "other" "XX", AcpUpdate.agentTextChunk "s1" "lo"]
    StopReason.endTurn (by decide)

/-- The flags and process handle governing teardown of one
`runPromptWithTempAcp` invocation: `cleanedUp` guards `cleanup`, `settled`
guards `settle`, and `processAlive` mirrors
`!tempProcess.killed && tempProcess.exitCode === null`. -/
structure SessSt where
  cleanedUp : Bool
  settled : Bool
  processAlive : Bool
deriving Repr, DecidableEq

/-- Observable teardown/settlement effects. `termSignalSeq` is one run of
`terminateProcessGracefully` (SIGTERM, grace wait, SIGKILL escalation);
`cancelSignal` is the best-effort protocol `cancel`; the promise handlers are
the `resolve`/`reject` passed to `settle`. -/
inductive SessEff where
  | cancelSignal
  | termSignalSeq
  | promiseResolved
  | promiseRejected
deriving Repr, DecidableEq

/-- `cleanup()`: idempotence flag first, then timer clearing, a best-effort
session cancel, and graceful termination only while the process is alive. -/
def cleanupRun (st : SessSt) : SessSt × List SessEff :=
  if st.cleanedUp then (st, [])
  else
    let st1 := { st with cleanedUp := true }
    if st1.processAlive then
      ({ st1 with processAlive := false }, [SessEff.cancelSignal, SessEff.termSignalSeq])
    else (st1, [SessEff.cancelSignal])

/-- `settle(handler)`: single-assignment `settled` flag, then `cleanup()`,
then the handler (resolve or reject) runs exactly once. -/
def settleRun (handler : SessEff) (st : SessSt) : SessSt × List SessEff :=
  if st.settled then (st, [])
  else
    let st1 := { st with settled := true }
    let r := cleanupRun st1
    (r.1, r.2 ++ [handler])

/-- The redundant invocations arriving from the completion paths: prompt
success (`settle(resolve)`), prompt failure / timeouts / cancellation
(`settle(reject)`), and the outer `finally` (`cleanup()`). -/
inductive SessCall where
  | settleResolve
  | settleReject
  | cleanupCall
deriving Repr, DecidableEq

def sessStep (st : SessSt) : SessCall → SessSt × List SessEff
  | SessCall.settleResolve => settleRun SessEff.promiseResolved st
  | SessCall.settleReject => settleRun SessEff.promiseRejected st
  | SessCall.cleanupCall => cleanupRun st

def runSession : SessSt → List SessCall → SessSt × List SessEff
  | st, [] => (st, [])
  | st, c :: rest =>
    let r1 := sessStep st c
    let r2 := runSession r1.1 rest
    (r2.1, r1.2 ++ r2.2)

def initSessSt : SessSt := ⟨false, false, true⟩

def countEff (e : SessEff) (tr : List SessEff) : Nat := tr.count e

def settlementCount (tr : List SessEff) : Nat :=
  countEff SessEff.promiseResolved tr + countEff SessEff.promiseRejected tr

def isSettleCall : SessCall → Bool
  | SessCall.settleResolve => true
  | SessCall.settleReject => true
  | SessCall.cleanupCall => false

theorem sessStep_facts (st : SessSt) (c : SessCall) :
    (countEff SessEff.termSignalSeq (sessStep st c).2
        + (if (sessStep st c).1.cleanedUp = true then 0 else 1)
      ≤ (if st.cleanedUp = true then 0 else 1))
    ∧ (settlementCount (sessStep st c).2
        + (if (sessStep st c).1.settled = true then 0 else 1)
      ≤ (if st.settled = true then 0 else 1))
    ∧ (isSettleCall c = true → st.settled = false →
        settlementCount (sessStep st c).2 = 1 ∧ (sessStep st c).1.settled = true)
    ∧ (isSettleCall c = false →
        settlementCount (sessStep st c).2 = 0 ∧ (sessStep st c).1.settled = st.settled) := by
  obtain ⟨cu, se, pa⟩ := st
  cases cu <;> cases se <;> cases pa <;> cases c <;> decide

theorem runSession_spec :
    ∀ calls st,
      countEff SessEff.termSignalSeq (runSession st calls).2
          ≤ (if st.cleanedUp = true then 0 else 1)
      ∧ settlementCount (runSession st calls).2 ≤ (if st.settled = true then 0 else 1)
      ∧ (st.settled = false → (∃ c ∈ calls, isSettleCall c = true) →
          settlementCount (runSession st calls).2 = 1) := by
  intro calls
  induction calls with
  | nil =>
    intro st
    refine ⟨by simp [runSession, countEff], by simp [runSession, settlementCount, countEff], ?_⟩
    rintro _ ⟨c, hc, _⟩
    simp at hc
  | cons c rest ih =>
    intro st
    obtain ⟨f1, f2, f3, f4⟩ := sessStep_facts st c
    obtain ⟨i1, i2, i3⟩ := ih (sessStep st c).1
    have hcount : countEff SessEff.termSignalSeq (runSession st (c :: rest)).2
        = countEff SessEff.termSignalSeq (sessStep st c).2
          + countEff SessEff.termSignalSeq (runSession (sessStep st c).1 rest).2 := by
      show countEff SessEff.termSignalSeq ((sessStep st c).2 ++ _) = _
      simp [countEff, List.count_append]
    have hset : settlementCount (runSession st (c :: rest)).2
        = settlementCount (sessStep st c).2
          + settlementCount (runSession (sessStep st c).1 rest).2 := by
      show settlementCount ((sessStep st c).2 ++ _) = _
      simp only [settlementCount, countEff, List.count_append]
      omega
    refine ⟨by omega, by omega, ?_⟩
    intro hsf hex
    cases hc : isSettleCall c with
    | true =>
      obtain ⟨hs1, hs2⟩ := f3 hc hsf
      rw [hs2] at i2
      simp at i2
      omega
    | false =>
      obtain ⟨hs1, hs2⟩ := f4 hc
      obtain ⟨c0, hmem, hc0⟩ := hex
      rcases List.mem_cons.mp hmem with heq | hmem2
      · rw [heq, hc] at hc0
        cases hc0
      · have := i3 (hs2.trans hsf) ⟨c0, hmem2, hc0⟩
        omega

/-- C7: teardown of one process-session run is idempotent — across any
sequence of redundant invocations from the completion paths (success,
timeout, error, cancellation, and the outer finally), the
termination-signal sequence runs at most once, and the outer promise is
resolved or rejected at most once, and exactly once as soon as at least one
completion path invoked `settle`. -/
theorem teardown_idempotent (calls : List SessCall) :
    countEff SessEff.termSignalSeq (runSession initSessSt calls).2 ≤ 1
    ∧ settlementCount (runSession initSessSt calls).2 ≤ 1
    ∧ ((∃ c ∈ calls, isSettleCall c = true) →
        settlementCount (runSession initSessSt calls).2 = 1) := by
  obtain ⟨h1, h2, h3⟩ := runSession_spec calls initSessSt
  exact ⟨by simpa [initSessSt] using h1, by simpa [initSessSt] using h2, h3 rfl⟩

theorem teardown_idempotent_witness :
    countEff SessEff.termSignalSeq (runSession initSessSt
        [SessCall.settleReject, SessCall.settleResolve, SessCall.cleanupCall]).2 ≤ 1
    ∧ settlementCount (runSession initSessSt
        [SessCall.settleReject, SessCall.settleResolve, SessCall.cleanupCall]).2 ≤ 1
    ∧ settlementCount (runSession initSessSt
        [SessCall.settleReject, SessCall.settleResolve, SessCall.cleanupCall]).2 = 1 :=
  ⟨(teardown_idempotent [SessCall.settleReject, SessCall.settleResolve, SessCall.cleanupCall]).1,
   (teardown_idempotent [SessCall.settleReject, SessCall.settleResolve, SessCall.cleanupCall]).2.1,
   (teardown_idempotent [SessCall.settleReject, SessCall.settleResolve,
      SessCall.cleanupCall]).2.2 ⟨SessCall.settleReject, by decide, rfl⟩⟩

end TempAcp

namespace Sched

inductive ScheduleType where
  | recurringCron
  | oneTime
  | asyncConversation
deriving Repr, DecidableEq

/-- The fields of a `ScheduleConfig` record that `handleScheduledJob` reads
(`metadata.chatId` as an optional string; the JavaScript truthiness test also
drops an empty string). -/
structure ScheduleConfig where
  id : String
  message : String
  description : Option String
  type : ScheduleType
  chatIdMeta : Option String
deriving Repr, DecidableEq

/-- Effects the handler can perform, in order of occurrence. -/
inductive SchedEff where
  | sendTextToChat (chatId : String) (text : String)
  | conversationCompleteCb (userMessage botResponse chatId : String)
  | appendContextCb (text : String)
  | logMissingChatId
  | logNoTargetChat
  | logFailure
deriving Repr, DecidableEq

/-- JavaScript truthiness of an optional string (`undefined`, `null` and `''`
are falsy). -/
def jsTruthyStr : Option String → Option String
  | none => none
  | some s => if s = "" then none else some s

def successText (message response : String) : String :=
  "✅ Background task completed.\n\nOriginal Request: \"" ++ message
    ++ "\"\n\nResult:\n" ++ response

def asyncFailText (schedule : ScheduleConfig) (e : String) : String :=
  "❌ Background task failed: " ++ (jsTruthyStr schedule.description).getD schedule.message
    ++ "\n\nError: " ++ e

def cronFailText (schedule : ScheduleConfig) (e : String) : String :=
  "❌ Scheduled task failed: " ++ (jsTruthyStr schedule.description).getD schedule.message
    ++ "\n\nError: " ++ e

def contextUpdateText (message response : String) : String :=
  "Background task result for \"" ++ message ++ "\":\n\n" ++ response

/-- `handleScheduledJob(schedule)` as a function of its injected collaborators:
`resolveTarget` is `resolveTargetChatId()`, `norm` is `normalizeOutgoingText`,
`hasConvCb`/`hasAppendCb` say whether the optional callbacks were supplied,
and `runResult` is the settled outcome of
`buildPromptWithMemory` + `runScheduledPromptWithTempAcp`.  Returns the
ordered effect list; the handler itself always returns normally. -/
def handleScheduledJob (resolveTarget : Option String) (norm : String → String)
    (hasConvCb hasAppendCb : Bool) (schedule : ScheduleConfig)
    (runResult : Except String String) : List SchedEff :=
  match runResult with
  | Except.ok response =>
    if schedule.type = ScheduleType.asyncConversation then
      match jsTruthyStr schedule.chatIdMeta with
      | none => [SchedEff.logMissingChatId]
      | some chatId =>
        [SchedEff.sendTextToChat chatId (norm (successText schedule.message response))]
          ++ (if hasConvCb then
                [SchedEff.conversationCompleteCb schedule.message response chatId] else [])
          ++ (if hasAppendCb then
                [SchedEff.appendContextCb (contextUpdateText schedule.message response)]
              else [])
    else
      match jsTruthyStr resolveTarget with
      | some target => [SchedEff.sendTextToChat target (norm response)]
      | none => [SchedEff.logNoTargetChat]
  | Except.error e =>
    SchedEff.logFailure ::
      (if schedule.type = ScheduleType.asyncConversation then
        match jsTruthyStr schedule.chatIdMeta with
        | some chatId => [SchedEff.sendTextToChat chatId (norm (asyncFailText schedule e))]
        | none => []
      else
        match jsTruthyStr resolveTarget with
        | some target => [SchedEff.sendTextToChat target (norm (cronFailText schedule e))]
        | none => [])

def effIsSend : SchedEff → Bool
  | SchedEff.sendTextToChat _ _ => true
  | _ => false

def effIsConvCb : SchedEff → Bool
  | SchedEff.conversationCompleteCb _ _ _ => true
  | _ => false

/-- C9: an `async_conversation` schedule firing without a chatId in its
metadata is dropped after logging — on a successful run, the only effect is
the missing-chatId log; and for every run outcome, no message is sent to any
chat and the conversation-history callback never runs; the handler returns
normally (it is a total function into an effect list). -/
theorem async_job_missing_chatId_dropped (resolveTarget : Option String)
    (norm : String → String) (hasConvCb hasAppendCb : Bool)
    (schedule : ScheduleConfig) (response : String)
    (htype : schedule.type = ScheduleType.asyncConversation)
    (hchat : schedule.chatIdMeta = none) :
    handleScheduledJob resolveTarget norm hasConvCb hasAppendCb schedule (Except.ok response)
      = [SchedEff.logMissingChatId]
    ∧ ∀ runResult : Except String String,
        (handleScheduledJob resolveTarget norm hasConvCb hasAppendCb schedule runResult).all
          (fun e => !effIsSend e && !effIsConvCb e) = true := by
  constructor
  · simp [handleScheduledJob, htype, hchat, jsTruthyStr]
  · intro runResult
    cases runResult with
    | ok response2 => simp [handleScheduledJob, htype, hchat, jsTruthyStr, effIsSend, effIsConvCb]
    | error e => simp [handleScheduledJob, htype, hchat, jsTruthyStr, effIsSend, effIsConvCb]

theorem async_job_missing_chatId_dropped_witness :
    handleScheduledJob (some "target") (fun t => t) true true
        (⟨"sched1", "scan the repo", none, ScheduleType.asyncConversation, none⟩ : ScheduleConfig)
        (Except.ok "done")
      = [SchedEff.logMissingChatId]
    ∧ ∀ runResult : Except String String,
        (handleScheduledJob (some "target") (fun t => t) true true
            (⟨"sched1", "scan the repo", none, ScheduleType.asyncConversation,
              none⟩ : ScheduleConfig) runResult).all
          (fun e => !effIsSend e && !effIsConvCb e) = true :=
  async_job_missing_chatId_dropped (some "target") (fun t => t) true true
    (⟨"sched1", "scan the repo", none, ScheduleType.asyncConversation, none⟩ : ScheduleConfig)
    "done" (by decide) (by decide)

end Sched
